import Mathlib

/-!
Shallow embedding of the bookmark-management core of the Bookmarker
application (src/App.tsx), covering the collection pipeline
(`filteredBookmarks`), the drag-and-drop reorder logic (`handleDragEnd`
together with `arrayMove` from the dnd-kit library it calls), and the
import/merge logic (`handleImportFile`).

Conventions of the embedding:
* JavaScript arrays are Lean lists; `Array.prototype.filter`,
  `Array.prototype.findIndex`, `Array.prototype.every` and `Set`
  membership over strings are modelled by the corresponding list
  operations.
* `Array.prototype.sort` is stable (ES2019); it is modelled by a stable
  insertion sort driven by the comparator of src/App.tsx lines 263-273,
  where an element `a` is placed before `b` exactly when `compare a b <= 0`.
* JavaScript numbers that the program only creates from `Date.now()` are
  modelled as `Int`.
* `String.prototype.toLowerCase` and `String.prototype.includes` are
  modelled character-wise on the underlying character list.
* For the import path, untrusted JSON values are modelled by the
  inductive `JValue`; JavaScript expressions that can throw a `TypeError`
  (property access on `null`/`undefined`, calling `.toLowerCase()` on a
  non-string) are modelled in the `Option` monad, `none` meaning a thrown
  exception.
-/

/-- Bookmark record. The `Bookmark` interface itself lives in `./types`
(outside the two source files); its fields are reconstructed from every
use in src/App.tsx and src/components/BookmarkCard.tsx and from the data
model of the design document: `id`, `url`, `title`, `domain`, `category`
and a numeric `createdAt` (epoch milliseconds, modelled as `Int`).
`category` is kept as a plain string, as categories are compared with
`===` against string literals in src/App.tsx. -/
structure Bookmark where
  id : String
  url : String
  title : String
  domain : String
  category : String
  createdAt : Int
deriving DecidableEq

/-- Default record used only as the fallback of `List.getD`; theorems
that use it always do so at indices that are in range. -/
def defaultBookmark : Bookmark :=
  { id := "", url := "", title := "", domain := "", category := "", createdAt := 0 }

/-- Sort option enumeration of src/App.tsx line 39:
`'newest' | 'oldest' | 'a-z' | 'z-a' | 'domain' | 'custom'`
(`az`/`za` stand for the literals `'a-z'`/`'z-a'`). -/
inductive SortOption where
  | newest
  | oldest
  | az
  | za
  | domain
  | custom
deriving DecidableEq

/-- Model of `String.prototype.toLowerCase`, applied character-wise. -/
def jsToLowerCase (s : String) : String :=
  ⟨s.data.map Char.toLower⟩

/-- Helper for `containsChars`: the needle is a prefix of the haystack. -/
def startsWithChars : List Char → List Char → Bool
  | _, [] => true
  | [], _ :: _ => false
  | h :: hs, n :: ns => (h == n) && startsWithChars hs ns

/-- Helper for `jsIncludes`: the needle occurs contiguously in the
haystack. -/
def containsChars : List Char → List Char → Bool
  | [], needle => startsWithChars [] needle
  | h :: t, needle => startsWithChars (h :: t) needle || containsChars t needle

/-- Model of `String.prototype.includes`: `jsIncludes hay needle` is
`hay.includes(needle)`. -/
def jsIncludes (hay needle : String) : Bool :=
  containsChars hay.data needle.data

/-- The category test of the filter, src/App.tsx line 257:
`selectedCategory === 'All Bookmarks' || bookmark.category === selectedCategory`. -/
def matchesCategory (selectedCategory : String) (b : Bookmark) : Bool :=
  (selectedCategory == "All Bookmarks") || (b.category == selectedCategory)

/-- The search test of the filter, src/App.tsx lines 258-260:
`bookmark.title.toLowerCase().includes(searchQuery.toLowerCase()) ||
 bookmark.domain.toLowerCase().includes(searchQuery.toLowerCase())`. -/
def matchesSearch (searchQuery : String) (b : Bookmark) : Bool :=
  jsIncludes (jsToLowerCase b.title) (jsToLowerCase searchQuery) ||
    jsIncludes (jsToLowerCase b.domain) (jsToLowerCase searchQuery)

/-- Model of `String.prototype.localeCompare` restricted to what the
comparator needs: a total comparison returning a negative, zero or
positive number, modelled by lexicographic string comparison. -/
def strCompare (a b : String) : Int :=
  match compare a b with
  | .lt => -1
  | .eq => 0
  | .gt => 1

/-- The sort comparator of src/App.tsx lines 263-272 (the `default`
branch of the `switch` is unreachable because `SortOption` is closed;
it returns 0 like `custom`). -/
def sortComparator (sortOption : SortOption) (a b : Bookmark) : Int :=
  match sortOption with
  | .newest => b.createdAt - a.createdAt
  | .oldest => a.createdAt - b.createdAt
  | .az => strCompare a.title b.title
  | .za => strCompare b.title a.title
  | .domain => strCompare a.domain b.domain
  | .custom => 0

/-- Boolean form of the comparator: `a` may stay before `b`. -/
def sortLe (sortOption : SortOption) (a b : Bookmark) : Bool :=
  sortComparator sortOption a b ≤ 0

/-- Stable insertion used by `stableSort`: `a` is placed after every
already-placed element `b` with `le b a` (ties keep the earlier element
first, which is the ES2019 stability guarantee of `Array.prototype.sort`). -/
def stableInsert (le : α → α → Bool) (a : α) : List α → List α
  | [] => [a]
  | b :: t => if le b a then b :: stableInsert le a t else a :: b :: t

/-- Stable sort modelling `Array.prototype.sort` with a consistent
comparator: elements are inserted in their original order, each after
all elements not strictly greater than it. -/
def stableSort (le : α → α → Bool) (l : List α) : List α :=
  l.foldl (fun acc a => stableInsert le a acc) []

/-- The collection pipeline `filteredBookmarks` of src/App.tsx lines
255-273: filter by category and search query, then sort a copy of the
filtered list by the selected comparator (JavaScript `sort` mutates the
array produced by `filter`, never the stored `bookmarks` array). -/
def filteredBookmarks (bookmarks : List Bookmark)
    (selectedCategory searchQuery : String) (sortOption : SortOption) :
    List Bookmark :=
  stableSort (sortLe sortOption)
    (bookmarks.filter fun b => matchesCategory selectedCategory b && matchesSearch searchQuery b)

/-- In-memory state relevant to reordering: the stored collection and
the selected sort option. -/
structure AppState where
  bookmarks : List Bookmark
  sortOption : SortOption
deriving DecidableEq

/-- Drag-end event: `active.id` and, when a drop target was resolved,
`over.id` (src/App.tsx line 282). -/
structure DragEndEvent where
  activeId : String
  overId : Option String
deriving DecidableEq

/-- Model of `Array.prototype.findIndex`: index of the first match, or
-1 when no element matches. -/
def jsFindIndex (p : α → Bool) (l : List α) : Int :=
  match l.findIdx? p with
  | some i => (i : Int)
  | none => -1

/-- Model of `arrayMove` of the dnd-kit library (`@dnd-kit/sortable`),
which src/App.tsx line 297 calls:
the inner `splice(from, 1)` removes the element, the outer
`splice(to < 0 ? length + to : to, 0, removed)` reinserts it, where the
`length` in the target computation is read before the removal and both
splice starts are clamped into range the way `Array.prototype.splice`
clamps them. When the inner splice removes nothing (with indices coming
from `findIndex` this happens only on the empty array), JavaScript would
insert `undefined`; the model, typed over lists of `α`, inserts nothing
in that case, and no theorem below depends on that branch. -/
def arrayMove (l : List α) (i j : Int) : List α :=
  let outerArg : Int := if j < 0 then (l.length : Int) + j else j
  let fromIdx : Nat := if i < 0 then ((l.length : Int) + i).toNat else min i.toNat l.length
  match l[fromIdx]? with
  | some x =>
    let l2 := l.eraseIdx fromIdx
    let toIdx : Nat :=
      if outerArg < 0 then ((l2.length : Int) + outerArg).toNat
      else min outerArg.toNat l2.length
    l2.insertIdx toIdx x
  | none => l.eraseIdx fromIdx

/-- The drag-end handler of src/App.tsx lines 281-299: no mutation when
there is no drop target or the target equals the source; otherwise the
sort option becomes `custom` (line 288-290 sets it whenever it differs,
so it is `custom` afterwards in every case) and the stored collection is
rebuilt by `arrayMove` at the indices that `findIndex` resolves by id
against the full stored collection. -/
def handleDragEnd (s : AppState) (e : DragEndEvent) : AppState :=
  match e.overId with
  | none => s
  | some overId =>
    if e.activeId == overId then s
    else
      { bookmarks :=
          arrayMove s.bookmarks
            (jsFindIndex (fun b => b.id == e.activeId) s.bookmarks)
            (jsFindIndex (fun b => b.id == overId) s.bookmarks),
        sortOption := .custom }

/-- Result of the merge step of the import handler. -/
structure MergeResult where
  merged : List Bookmark
  addedCount : Nat
deriving DecidableEq

/-- The merge step of `handleImportFile`, src/App.tsx lines 223-227,
restricted to well-formed bookmark records: the ids already present are
collected (`new Set(bookmarks.map(b => b.id))`, modelled as the id
list), incoming records whose id is already present are dropped, and
the remainder is appended after the current collection. The reported
count (line 227) is the number of appended records. -/
def mergeImport (current incoming : List Bookmark) : MergeResult :=
  let currentIds := current.map (fun b => b.id)
  let newBookmarks := incoming.filter fun b => !(currentIds.contains b.id)
  { merged := current ++ newBookmarks, addedCount := newBookmarks.length }

/-- The import validity test of src/App.tsx line 220 restricted to
well-formed bookmark records: `b.id && b.url && typeof b.createdAt ===
'number'`, where a string is truthy exactly when it is nonempty and
`createdAt` of a record is always a number. -/
def validBookmarkEntry (b : Bookmark) : Bool :=
  (b.id != "") && (b.url != "")

-- Helper lemmas about the stable sort.

/-- stableInsert under a relation that always holds appends at the end. -/
theorem stableInsert_of_le_true (le : α → α → Bool) (a : α)
    (l : List α) (h : ∀ x y, le x y = true) :
    stableInsert le a l = l ++ [a] := by
  induction l with
  | nil => rfl
  | cons b t ih => simp [stableInsert, h, ih]

theorem foldl_stableInsert_of_le_true (le : α → α → Bool)
    (h : ∀ x y, le x y = true) (l acc : List α) :
    List.foldl (fun acc a => stableInsert le a acc) acc l = acc ++ l := by
  induction l generalizing acc with
  | nil => simp
  | cons a t ih =>
    simp only [List.foldl_cons]
    rw [ih, stableInsert_of_le_true le a acc h]
    simp

/-- stableSort under a relation that always holds is the identity. -/
theorem stableSort_of_le_true (le : α → α → Bool)
    (h : ∀ x y, le x y = true) (l : List α) :
    stableSort le l = l := by
  simpa [stableSort] using foldl_stableInsert_of_le_true le h l []

theorem mem_stableInsert (le : α → α → Bool) (a x : α) (l : List α) :
    x ∈ stableInsert le a l ↔ x = a ∨ x ∈ l := by
  induction l with
  | nil => simp [stableInsert]
  | cons b t ih =>
    simp only [stableInsert]
    by_cases hb : le b a = true
    · rw [if_pos hb]
      simp only [List.mem_cons, ih]
      tauto
    · rw [if_neg hb]
      simp only [List.mem_cons]

theorem mem_foldl_stableInsert (le : α → α → Bool) (x : α)
    (l acc : List α) :
    x ∈ List.foldl (fun acc a => stableInsert le a acc) acc l ↔
      x ∈ acc ∨ x ∈ l := by
  induction l generalizing acc with
  | nil => simp
  | cons a t ih =>
    simp only [List.foldl_cons, ih, mem_stableInsert, List.mem_cons]
    tauto

theorem mem_stableSort (le : α → α → Bool) (x : α) (l : List α) :
    x ∈ stableSort le l ↔ x ∈ l := by
  simp [stableSort, mem_foldl_stableInsert]

/-- The custom comparator always allows keeping the current order. -/
theorem sortLe_custom_true : ∀ a b : Bookmark, sortLe .custom a b = true := by
  intro a b
  simp [sortLe, sortComparator]

/-- With the custom sort option the pipeline is exactly the filter. -/
theorem filteredBookmarks_custom (C : List Bookmark) (K Q : String) :
    filteredBookmarks C K Q .custom =
      C.filter (fun b => matchesCategory K b && matchesSearch Q b) :=
  stableSort_of_le_true _ sortLe_custom_true _

/-- Claim C3: with sort option `custom`, the view is exactly the
filtered stored collection — a subsequence of the stored collection in
its stored relative order, for every category and query; the stored
collection itself is a value the pipeline only reads. -/
theorem view_custom_is_filtered_subsequence (C : List Bookmark) (K Q : String) :
    filteredBookmarks C K Q .custom =
      C.filter (fun b => matchesCategory K b && matchesSearch Q b) ∧
    (filteredBookmarks C K Q .custom).Sublist C := by
  refine ⟨filteredBookmarks_custom C K Q, ?_⟩
  rw [filteredBookmarks_custom C K Q]
  exact List.filter_sublist C

-- Helper lemmas about the search predicate.

theorem startsWithChars_nil (hay : List Char) : startsWithChars hay [] = true := by
  cases hay <;> rfl

theorem containsChars_nil (hay : List Char) : containsChars hay [] = true := by
  cases hay with
  | nil => rfl
  | cons h t => simp [containsChars, startsWithChars_nil]

/-- Claim C2: every bookmark of the view satisfies the category and
case-insensitive-substring predicates of the filter; conversely every
bookmark of the collection satisfying both appears in the view (the
sort step only permutes the filter output); and the empty query matches
every bookmark. -/
theorem view_filter_characterization (C : List Bookmark) (K Q : String) (S : SortOption) :
    (∀ b ∈ filteredBookmarks C K Q S, matchesCategory K b = true ∧ matchesSearch Q b = true) ∧
    (∀ b ∈ C, matchesCategory K b = true → matchesSearch Q b = true →
      b ∈ filteredBookmarks C K Q S) ∧
    (∀ b : Bookmark, matchesSearch "" b = true) := by
  refine ⟨?_, ?_, ?_⟩
  · intro b hb
    rw [filteredBookmarks, mem_stableSort, List.mem_filter] at hb
    have h2 := hb.2
    simp only [Bool.and_eq_true] at h2
    exact h2
  · intro b hb h1 h2
    rw [filteredBookmarks, mem_stableSort, List.mem_filter]
    exact ⟨hb, by simp [h1, h2]⟩
  · intro b
    have h : (jsToLowerCase "").data = [] := rfl
    simp [matchesSearch, jsIncludes, h, containsChars_nil]

/-- Concrete bookmark used by witnesses of the pipeline theorems. -/
def bk0 : Bookmark :=
  { id := "1", url := "https://x.com", title := "a", domain := "x.com",
    category := "Websites", createdAt := 5 }

theorem view_filter_characterization_witness :
    bk0 ∈ filteredBookmarks [bk0] "All Bookmarks" "" .newest ∧
    (matchesCategory "All Bookmarks" bk0 = true ∧ matchesSearch "" bk0 = true) :=
  ⟨by decide,
   (view_filter_characterization [bk0] "All Bookmarks" "" .newest).1 bk0 (by decide)⟩

/-- Claim C8: merging a collection into itself adds nothing and returns
the collection unchanged; merging id-disjoint collections appends all
incoming records and counts them all. -/
theorem mergeImport_laws (C A B : List Bookmark)
    (hdisj : ∀ a ∈ A, ∀ b ∈ B, a.id ≠ b.id) :
    (mergeImport C C).addedCount = 0 ∧ (mergeImport C C).merged = C ∧
    (mergeImport A B).merged.length = A.length + B.length ∧
    (mergeImport A B).addedCount = B.length := by
  refine ⟨?_, ?_, ?_, ?_⟩ <;> simp [mergeImport]
  · exact fun a ha => ⟨a, ha, rfl⟩
  · exact fun a ha => ⟨a, ha, rfl⟩
  · exact fun b hb a ha => hdisj a ha b hb
  · exact fun b hb a ha => hdisj a ha b hb

theorem mergeImport_laws_witness :
    (∀ a ∈ ([bk0] : List Bookmark), ∀ b ∈ ([] : List Bookmark), a.id ≠ b.id) ∧
    ((mergeImport [bk0] [bk0]).addedCount = 0 ∧ (mergeImport [bk0] [bk0]).merged = [bk0] ∧
      (mergeImport [bk0] []).merged.length = 1 + 0 ∧
      (mergeImport [bk0] []).addedCount = 0) :=
  ⟨by decide, by
    have h := mergeImport_laws [bk0] [bk0] [] (by decide)
    simpa using h⟩

-- Concrete records for the import/merge claims.

/-- Well-formed incoming record with id "x". -/
def bkDup1 : Bookmark :=
  { id := "x", url := "https://a.example", title := "A", domain := "a.example",
    category := "Websites", createdAt := 1 }

/-- A second well-formed incoming record with the same id "x". -/
def bkDup2 : Bookmark :=
  { id := "x", url := "https://b.example", title := "B", domain := "b.example",
    category := "Websites", createdAt := 2 }

/-- Well-formed record with id "y". -/
def bkY : Bookmark :=
  { id := "y", url := "https://y.example", title := "Y", domain := "y.example",
    category := "Websites", createdAt := 3 }

/-- Counterexample to claim C1 as stated: the empty current collection
has pairwise distinct ids and the incoming list `[bkDup1, bkDup2]`
passes the import validity test of line 220, yet the merged collection
contains both records with id "x" — the merge of lines 223-225 only
filters incoming ids against the current collection, never against the
incoming list itself, so the merged ids are not pairwise distinct and
both duplicates appear. -/
theorem import_distinct_ids_counterexample :
    (([] : List Bookmark).map (fun b => b.id)).Nodup ∧
    [bkDup1, bkDup2].all validBookmarkEntry = true ∧
    ¬ ((mergeImport [] [bkDup1, bkDup2]).merged.map (fun b => b.id)).Nodup ∧
    (mergeImport [] [bkDup1, bkDup2]).merged.countP (fun b => b.id == "x") = 2 := by
  decide

/-- Claim C1, amended: if additionally the incoming records' ids are
themselves pairwise distinct, then the merged collection produced by
the import merge has pairwise distinct ids. -/
theorem import_preserves_distinct_ids (current incoming : List Bookmark)
    (hcur : (current.map (fun b => b.id)).Nodup)
    (hinc : (incoming.map (fun b => b.id)).Nodup)
    (hvalid : incoming.all validBookmarkEntry = true) :
    ((mergeImport current incoming).merged.map (fun b => b.id)).Nodup := by
  have hsub : ((incoming.filter fun b =>
      !((current.map (fun b => b.id)).contains b.id)).map (fun b => b.id)).Sublist
        (incoming.map (fun b => b.id)) :=
    List.Sublist.map _ (List.filter_sublist incoming)
  simp only [mergeImport, List.map_append]
  refine List.Nodup.append hcur (hsub.nodup hinc) ?_
  intro x hx1 hx2
  simp only [List.mem_map] at hx1 hx2
  obtain ⟨b, hb, rfl⟩ := hx2
  have hbf := (List.mem_filter.mp hb).2
  simp only [List.contains, Bool.not_eq_true', List.elem_eq_mem,
    decide_eq_false_iff_not, List.mem_map, not_exists] at hbf
  obtain ⟨a, ha, hid⟩ := hx1
  exact hbf a ⟨ha, hid⟩

theorem import_preserves_distinct_ids_witness :
    (([bkDup1] : List Bookmark).map (fun b => b.id)).Nodup ∧
    ([bkY].map (fun b => b.id)).Nodup ∧
    [bkY].all validBookmarkEntry = true ∧
    ((mergeImport [bkDup1] [bkY]).merged.map (fun b => b.id)).Nodup :=
  ⟨by decide, by decide, by decide,
    import_preserves_distinct_ids [bkDup1] [bkY] (by decide) (by decide) (by decide)⟩

-- List surgery lemmas used by the reorder theorems.

theorem insertIdx_eq_take_cons_drop (l : List α) (x : α) :
    ∀ n : Nat, n ≤ l.length → l.insertIdx n x = l.take n ++ x :: l.drop n := by
  induction l with
  | nil =>
    intro n hn
    have : n = 0 := Nat.le_zero.mp hn
    subst this
    rfl
  | cons b t ih =>
    intro n hn
    cases n with
    | zero => rfl
    | succ m =>
      simp only [List.insertIdx_succ_cons, List.take_succ_cons, List.drop_succ_cons,
        List.cons_append]
      rw [ih m (by simpa using hn)]

theorem getD_eq_getElem_of_lt (l : List α) (d : α) (n : Nat) (h : n < l.length) :
    l.getD n d = l[n] := by
  rw [List.getD_eq_getElem?_getD, List.getElem?_eq_getElem h, Option.getD_some]

theorem eraseIdx_insertIdx_seg_lt (l : List α) (x : α) (i j : Nat)
    (hij : i < j) (hj : j < l.length) :
    (l.eraseIdx i).insertIdx j x
      = l.take i ++ (l.drop (i + 1)).take (j - i) ++ x :: l.drop (j + 1) := by
  have hi : i < l.length := Nat.lt_trans hij hj
  have hj' : j ≤ (l.eraseIdx i).length := by
    rw [List.length_eraseIdx, if_pos hi]
    omega
  rw [insertIdx_eq_take_cons_drop _ _ _ hj', List.eraseIdx_eq_take_drop_succ,
    List.take_append_eq_append_take, List.drop_append_eq_append_drop,
    List.take_take, List.length_take]
  have h1 : min j i = i := by omega
  have h2 : min i l.length = i := by omega
  rw [h1, h2]
  have h3 : List.drop j (List.take i l) = [] :=
    List.drop_eq_nil_of_le (by rw [List.length_take]; omega)
  rw [h3, List.nil_append, List.drop_drop]
  have h4 : i + 1 + (j - i) = j + 1 := by omega
  rw [h4, List.append_assoc]

theorem eraseIdx_insertIdx_seg_gt (l : List α) (x : α) (i j : Nat)
    (hji : j < i) (hi : i < l.length) :
    (l.eraseIdx i).insertIdx j x
      = l.take j ++ x :: ((l.drop j).take (i - j) ++ l.drop (i + 1)) := by
  have hj' : j ≤ (l.eraseIdx i).length := by
    rw [List.length_eraseIdx, if_pos hi]
    omega
  rw [insertIdx_eq_take_cons_drop _ _ _ hj', List.eraseIdx_eq_take_drop_succ,
    List.take_append_eq_append_take, List.drop_append_eq_append_drop,
    List.take_take, List.length_take]
  have h1 : min j i = j := by omega
  have h2 : min i l.length = i := by omega
  have h3 : j - i = 0 := by omega
  rw [h1, h2, h3, List.take_zero, List.append_nil, List.drop_zero, List.drop_take]

theorem insertIdx_eraseIdx_self (l : List α) (i : Nat) (hi : i < l.length) :
    (l.eraseIdx i).insertIdx i l[i] = l := by
  have hi' : i ≤ (l.eraseIdx i).length := by
    rw [List.length_eraseIdx, if_pos hi]
    omega
  rw [insertIdx_eq_take_cons_drop _ _ _ hi', List.eraseIdx_eq_take_drop_succ,
    List.take_append_eq_append_take, List.drop_append_eq_append_drop,
    List.take_take, List.length_take]
  have h1 : min i i = i := by omega
  have h2 : min i l.length = i := by omega
  have h3 : i - i = 0 := by omega
  have h4 : List.drop i (List.take i l) = [] :=
    List.drop_eq_nil_of_le (by rw [List.length_take]; omega)
  rw [h1, h2, h3, List.take_zero, List.append_nil, h4, List.nil_append, List.drop_zero,
    List.getElem_cons_drop, List.take_append_drop]

/-- On in-range indices (the case of a drag whose source and target ids
are both present), `arrayMove` is: remove the element at `i`, reinsert
it at position `j`. -/
theorem arrayMove_eq_of_lt (l : List α) (i j : Nat)
    (hi : i < l.length) (hj : j < l.length) :
    arrayMove l (i : Int) (j : Int) = (l.eraseIdx i).insertIdx j l[i] := by
  have hjn : ¬ ((j : Int) < 0) := not_lt.mpr (Int.natCast_nonneg j)
  have hin : ¬ ((i : Int) < 0) := not_lt.mpr (Int.natCast_nonneg i)
  have hmin : min (i : Int).toNat l.length = i := by
    rw [Int.toNat_natCast]
    omega
  simp only [arrayMove, hin, hjn, if_false, hmin]
  rw [List.getElem?_eq_getElem hi]
  simp only
  have hlen : (l.eraseIdx i).length = l.length - 1 := by
    rw [List.length_eraseIdx, if_pos hi]
  have hmin2 : min (j : Int).toNat (l.eraseIdx i).length = j := by
    rw [Int.toNat_natCast, hlen]
    omega
  rw [hmin2]

/-- In a collection with pairwise distinct ids, entries at different
positions have different ids. -/
theorem id_getElem_ne (l : List Bookmark) (hnd : (l.map Bookmark.id).Nodup)
    (m k : Nat) (hm : m < l.length) (hk : k < l.length) (hmk : m ≠ k) :
    l[m].id ≠ l[k].id := by
  have hmm : m < (l.map Bookmark.id).length := by simpa using hm
  have hkk : k < (l.map Bookmark.id).length := by simpa using hk
  have hne : (l.map Bookmark.id)[m] ≠ (l.map Bookmark.id)[k] :=
    fun h => hmk (hnd.getElem_inj_iff.mp h)
  simpa using hne

/-- In a collection with pairwise distinct ids, `findIndex` by the id of
the entry at position `k` resolves to `k`. -/
theorem findIdx?_beq_id_getElem (l : List Bookmark) (hnd : (l.map Bookmark.id).Nodup)
    (k : Nat) (hk : k < l.length) :
    l.findIdx? (fun b => b.id == l[k].id) = some k := by
  rw [List.findIdx?_eq_some_iff_getElem]
  refine ⟨hk, by simp, ?_⟩
  intro m hm
  have hm' : m < l.length := Nat.lt_trans hm hk
  have := id_getElem_ne l hnd m k hm' hk (Nat.ne_of_lt hm)
  simpa using this

/-- When both ids are found (at positions `i` and `j`) and differ, the
drag-end handler produces the single-element move at those positions and
switches the sort option to custom. -/
theorem handleDragEnd_eq_of_found (l : List Bookmark) (so : SortOption)
    (src tgt : String) (i j : Nat)
    (hi : l.findIdx? (fun b => b.id == src) = some i)
    (hj : l.findIdx? (fun b => b.id == tgt) = some j)
    (hne : src ≠ tgt) :
    handleDragEnd ⟨l, so⟩ ⟨src, some tgt⟩
      = ⟨(l.eraseIdx i).insertIdx j (l.getD i defaultBookmark), .custom⟩ := by
  obtain ⟨hil, hpi, -⟩ := List.findIdx?_eq_some_iff_getElem.mp hi
  obtain ⟨hjl, hpj, -⟩ := List.findIdx?_eq_some_iff_getElem.mp hj
  have hne' : (src == tgt) = false := by
    simpa using hne
  simp only [handleDragEnd, hne', Bool.false_eq_true, if_false, jsFindIndex, hi, hj]
  rw [arrayMove_eq_of_lt l i j hil hjl, getD_eq_getElem_of_lt l defaultBookmark i hil]

/-- Claim C4: when source and target ids are both present (at positions
`i` and `j` of the full stored collection, located by id) and distinct,
the drag-end removes the source entry and reinserts it at the target's
position: for `i < j` the block of entries between the two positions
shifts down one slot and for `j < i` it shifts up one slot, everything
outside the two positions staying in place (a single-element move, not
a swap); when the target is absent or equals the source, the state is
unchanged. -/
theorem reorder_moves_single_element (l : List Bookmark) (so : SortOption)
    (src tgt : String) (i j : Nat)
    (hi : l.findIdx? (fun b => b.id == src) = some i)
    (hj : l.findIdx? (fun b => b.id == tgt) = some j)
    (hne : src ≠ tgt) :
    (handleDragEnd ⟨l, so⟩ ⟨src, some tgt⟩).bookmarks
        = (l.eraseIdx i).insertIdx j (l.getD i defaultBookmark) ∧
    (l.getD i defaultBookmark).id = src ∧
    (i < j → (handleDragEnd ⟨l, so⟩ ⟨src, some tgt⟩).bookmarks
        = l.take i ++ (l.drop (i + 1)).take (j - i)
            ++ l.getD i defaultBookmark :: l.drop (j + 1)) ∧
    (j < i → (handleDragEnd ⟨l, so⟩ ⟨src, some tgt⟩).bookmarks
        = l.take j ++ l.getD i defaultBookmark
            :: ((l.drop j).take (i - j) ++ l.drop (i + 1))) ∧
    handleDragEnd ⟨l, so⟩ ⟨src, none⟩ = ⟨l, so⟩ ∧
    handleDragEnd ⟨l, so⟩ ⟨src, some src⟩ = ⟨l, so⟩ := by
  obtain ⟨hil, hpi, -⟩ := List.findIdx?_eq_some_iff_getElem.mp hi
  obtain ⟨hjl, hpj, -⟩ := List.findIdx?_eq_some_iff_getElem.mp hj
  have hmain := handleDragEnd_eq_of_found l so src tgt i j hi hj hne
  have hgd : l.getD i defaultBookmark = l[i] := getD_eq_getElem_of_lt l defaultBookmark i hil
  refine ⟨by rw [hmain], ?_, ?_, ?_, rfl, by simp [handleDragEnd]⟩
  · rw [hgd]
    simpa using hpi
  · intro hij
    rw [hmain, hgd]
    exact eraseIdx_insertIdx_seg_lt l l[i] i j hij hjl
  · intro hji
    rw [hmain, hgd]
    exact eraseIdx_insertIdx_seg_gt l l[i] i j hji hil

theorem reorder_moves_single_element_witness :
    ([bkDup1, bkY, bk0].findIdx? (fun b => b.id == "x") = some 0) ∧
    ([bkDup1, bkY, bk0].findIdx? (fun b => b.id == "1") = some 2) ∧
    ("x" : String) ≠ "1" ∧
    (handleDragEnd ⟨[bkDup1, bkY, bk0], .newest⟩ ⟨"x", some "1"⟩).bookmarks
      = ([bkDup1, bkY, bk0].eraseIdx 0).insertIdx 2
          ([bkDup1, bkY, bk0].getD 0 defaultBookmark) :=
  ⟨by decide, by decide, by decide,
    (reorder_moves_single_element [bkDup1, bkY, bk0] .newest "x" "1" 0 2
      (by decide) (by decide) (by decide)).1⟩

/-- Claim C5: after a successful reorder (target present and distinct
from the present source) the sort option is `custom`, and the view
computed from the resulting state is exactly the filtered stored list
in stored order — the stored custom order — for every category and
query. -/
theorem reorder_forces_custom_order (l : List Bookmark) (so : SortOption)
    (src tgt : String) (i j : Nat) (K Q : String)
    (hi : l.findIdx? (fun b => b.id == src) = some i)
    (hj : l.findIdx? (fun b => b.id == tgt) = some j)
    (hne : src ≠ tgt) :
    (handleDragEnd ⟨l, so⟩ ⟨src, some tgt⟩).sortOption = .custom ∧
    filteredBookmarks (handleDragEnd ⟨l, so⟩ ⟨src, some tgt⟩).bookmarks K Q
        (handleDragEnd ⟨l, so⟩ ⟨src, some tgt⟩).sortOption
      = (handleDragEnd ⟨l, so⟩ ⟨src, some tgt⟩).bookmarks.filter
          (fun b => matchesCategory K b && matchesSearch Q b) := by
  rw [handleDragEnd_eq_of_found l so src tgt i j hi hj hne]
  exact ⟨rfl, filteredBookmarks_custom _ K Q⟩

theorem reorder_forces_custom_order_witness :
    ([bkDup1, bkY].findIdx? (fun b => b.id == "x") = some 0) ∧
    ([bkDup1, bkY].findIdx? (fun b => b.id == "y") = some 1) ∧
    ("x" : String) ≠ "y" ∧
    (handleDragEnd ⟨[bkDup1, bkY], .newest⟩ ⟨"x", some "y"⟩).sortOption = .custom :=
  ⟨by decide, by decide, by decide,
    (reorder_forces_custom_order [bkDup1, bkY] .newest "x" "y" 0 1 "All Bookmarks" ""
      (by decide) (by decide) (by decide)).1⟩

/-- Counterexample to claim C6 as stated: in the two-element collection
`[bkDup1, bkY]` (ids "x" and "y"), a drag-end with source "x" and
target "z" — a target id not present in the stored collection — is not
ignored: `findIndex` yields -1 for "z", `arrayMove` reinterprets -1 as
`length - 1`, and the collection changes from `[bkDup1, bkY]` to
`[bkY, bkDup1]` (the source is moved to the end). -/
theorem dragEnd_missing_target_counterexample :
    ("z" ∉ ([bkDup1, bkY].map (fun b => b.id))) ∧
    (handleDragEnd ⟨[bkDup1, bkY], .newest⟩ ⟨"x", some "z"⟩).bookmarks = [bkY, bkDup1] ∧
    (handleDragEnd ⟨[bkDup1, bkY], .newest⟩ ⟨"x", some "z"⟩).bookmarks ≠ [bkDup1, bkY] := by
  decide

/-- Claim C6, amended: a drag-end with no drop target, or whose target
id equals the source id, is silently ignored — the whole state
(collection and sort option) is exactly unchanged and no error is
raised. (As universally stated the claim is false: when exactly one of
the two ids is absent from the stored collection, `findIndex` returns
-1 and `arrayMove` treats it as the last position, so the collection
changes; such events cannot be produced by the UI, whose drop targets
are drawn from the rendered collection.) -/
theorem dragEnd_noop_cases (s : AppState) (src : String) :
    handleDragEnd s ⟨src, none⟩ = s ∧ handleDragEnd s ⟨src, some src⟩ = s := by
  refine ⟨rfl, ?_⟩
  simp [handleDragEnd]

/-- Claim C7: in a collection with pairwise distinct ids, dragging the
entry at position `i` onto the entry at position `j` and then dragging
that same entry (now at position `j`) back onto the entry at position
`i` restores the original stored collection exactly. -/
theorem reorder_roundtrip (l : List Bookmark) (so : SortOption) (i j : Nat)
    (hi : i < l.length) (hj : j < l.length) (hij : i ≠ j)
    (hnd : (l.map Bookmark.id).Nodup) :
    (handleDragEnd
        (handleDragEnd ⟨l, so⟩
          ⟨(l.getD i defaultBookmark).id, some (l.getD j defaultBookmark).id⟩)
        ⟨(l.getD i defaultBookmark).id,
          some (((handleDragEnd ⟨l, so⟩
              ⟨(l.getD i defaultBookmark).id,
                some (l.getD j defaultBookmark).id⟩).bookmarks.getD
                  i defaultBookmark).id)⟩).bookmarks = l := by
  have hgdi : l.getD i defaultBookmark = l[i] := getD_eq_getElem_of_lt l defaultBookmark i hi
  have hgdj : l.getD j defaultBookmark = l[j] := getD_eq_getElem_of_lt l defaultBookmark j hj
  have hfi : l.findIdx? (fun b => b.id == l[i].id) = some i := findIdx?_beq_id_getElem l hnd i hi
  have hfj : l.findIdx? (fun b => b.id == l[j].id) = some j := findIdx?_beq_id_getElem l hnd j hj
  have hneij : l[i].id ≠ l[j].id := id_getElem_ne l hnd i j hi hj hij
  have h1 : handleDragEnd ⟨l, so⟩ ⟨l[i].id, some l[j].id⟩
      = ⟨(l.eraseIdx i).insertIdx j l[i], .custom⟩ := by
    have h := handleDragEnd_eq_of_found l so l[i].id l[j].id i j hfi hfj hneij
    rw [hgdi] at h
    exact h
  have hjer : j ≤ (l.eraseIdx i).length := by
    rw [List.length_eraseIdx, if_pos hi]
    omega
  have hmlen : ((l.eraseIdx i).insertIdx j l[i]).length = l.length := by
    rw [List.length_insertIdx j _ hjer, List.length_eraseIdx, if_pos hi]
    omega
  have him : i < ((l.eraseIdx i).insertIdx j l[i]).length := by omega
  have hjm : j < ((l.eraseIdx i).insertIdx j l[i]).length := by omega
  have hmj : ((l.eraseIdx i).insertIdx j l[i])[j] = l[i] :=
    List.getElem_insertIdx_self (l.eraseIdx i) l[i] j hjer
  have hperm : ((l.eraseIdx i).insertIdx j l[i]).Perm l := by
    have p1 : ((l.eraseIdx i).insertIdx j l[i]).Perm (l[i] :: l.eraseIdx i) := by
      rw [insertIdx_eq_take_cons_drop _ _ _ hjer]
      have hp := @List.perm_middle _ l[i] ((l.eraseIdx i).take j) ((l.eraseIdx i).drop j)
      rw [List.take_append_drop] at hp
      exact hp
    have p2 : (l[i] :: l.eraseIdx i).Perm l := by
      rw [List.eraseIdx_eq_take_drop_succ]
      have hp := (@List.perm_middle _ l[i] (l.take i) (l.drop (i + 1))).symm
      rw [List.getElem_cons_drop, List.take_append_drop] at hp
      exact hp
    exact p1.trans p2
  have hmnd : (((l.eraseIdx i).insertIdx j l[i]).map Bookmark.id).Nodup :=
    ((hperm.map Bookmark.id).nodup_iff).mpr hnd
  have hgdm : ((l.eraseIdx i).insertIdx j l[i]).getD i defaultBookmark
      = ((l.eraseIdx i).insertIdx j l[i])[i] :=
    getD_eq_getElem_of_lt _ defaultBookmark i him
  have hfm_src : ((l.eraseIdx i).insertIdx j l[i]).findIdx? (fun b => b.id == l[i].id)
      = some j := by
    have h := findIdx?_beq_id_getElem _ hmnd j hjm
    rw [hmj] at h
    exact h
  have hfm_tgt : ((l.eraseIdx i).insertIdx j l[i]).findIdx?
      (fun b => b.id == ((l.eraseIdx i).insertIdx j l[i])[i].id) = some i :=
    findIdx?_beq_id_getElem _ hmnd i him
  have hne2 : l[i].id ≠ ((l.eraseIdx i).insertIdx j l[i])[i].id := by
    have h := id_getElem_ne _ hmnd j i hjm him (Ne.symm hij)
    rw [hmj] at h
    exact h
  have h2 : handleDragEnd ⟨(l.eraseIdx i).insertIdx j l[i], .custom⟩
        ⟨l[i].id, some ((l.eraseIdx i).insertIdx j l[i])[i].id⟩
      = ⟨(((l.eraseIdx i).insertIdx j l[i]).eraseIdx j).insertIdx i
          (((l.eraseIdx i).insertIdx j l[i]).getD j defaultBookmark), .custom⟩ :=
    handleDragEnd_eq_of_found _ .custom l[i].id _ j i hfm_src hfm_tgt hne2
  have hgdmj : ((l.eraseIdx i).insertIdx j l[i]).getD j defaultBookmark
      = ((l.eraseIdx i).insertIdx j l[i])[j] :=
    getD_eq_getElem_of_lt _ defaultBookmark j hjm
  have her : ((l.eraseIdx i).insertIdx j l[i]).eraseIdx j = l.eraseIdx i :=
    List.eraseIdx_insertIdx j (l.eraseIdx i)
  have hfinal : (((l.eraseIdx i).insertIdx j l[i]).eraseIdx j).insertIdx i
      (((l.eraseIdx i).insertIdx j l[i]).getD j defaultBookmark) = l := by
    rw [hgdmj, hmj, her]
    exact insertIdx_eraseIdx_self l i hi
  rw [hgdi, hgdj, h1]
  simp only
  rw [hgdm, h2]
  simp only
  exact hfinal

theorem reorder_roundtrip_witness :
    (0 < ([bkDup1, bkY, bk0] : List Bookmark).length ∧
      2 < ([bkDup1, bkY, bk0] : List Bookmark).length ∧ (0 : Nat) ≠ 2 ∧
      (([bkDup1, bkY, bk0] : List Bookmark).map Bookmark.id).Nodup) ∧
    (handleDragEnd
        (handleDragEnd ⟨[bkDup1, bkY, bk0], .newest⟩
          ⟨([bkDup1, bkY, bk0].getD 0 defaultBookmark).id,
            some ([bkDup1, bkY, bk0].getD 2 defaultBookmark).id⟩)
        ⟨([bkDup1, bkY, bk0].getD 0 defaultBookmark).id,
          some (((handleDragEnd ⟨[bkDup1, bkY, bk0], .newest⟩
              ⟨([bkDup1, bkY, bk0].getD 0 defaultBookmark).id,
                some ([bkDup1, bkY, bk0].getD 2 defaultBookmark).id⟩).bookmarks.getD
                  0 defaultBookmark).id)⟩).bookmarks = [bkDup1, bkY, bk0] :=
  ⟨⟨by decide, by decide, by decide, by decide⟩,
    reorder_roundtrip [bkDup1, bkY, bk0] .newest 0 2
      (by decide) (by decide) (by decide) (by decide)⟩

-- Raw JSON layer for the import path.

/-- Model of the JavaScript values that can flow through the import
handler: `JSON.parse` output (null, booleans, numbers, strings, arrays,
objects) plus `undefined`, which property access can produce. Numbers
are modelled as `Int` (the program only ever writes `Date.now()`
timestamps). -/
inductive JValue where
  | jundefined
  | jnull
  | jbool (b : Bool)
  | jnum (n : Int)
  | jstr (s : String)
  | jarr (elems : List JValue)
  | jobj (fields : List (String × JValue))

/-- JavaScript truthiness of a value (`NaN` cannot arise in the `Int`
model of numbers). -/
def jsTruthy : JValue → Bool
  | .jundefined => false
  | .jnull => false
  | .jbool b => b
  | .jnum n => n != 0
  | .jstr s => s != ""
  | .jarr _ => true
  | .jobj _ => true

/-- Property access `v[name]`: throws a TypeError (modelled `none`) on
`null` and `undefined`; on an object it reads the own field (first
binding; the concrete objects built below have distinct keys), yielding
`undefined` when absent; on the remaining primitives and arrays the
names used here (`id`, `url`, `createdAt`, `title`, `domain`,
`category`) are not built-in properties, so the access yields
`undefined`. -/
def jsGetField : JValue → String → Option JValue
  | .jundefined, _ => none
  | .jnull, _ => none
  | .jobj fields, name =>
    match fields.lookup name with
    | some v => some v
    | none => some .jundefined
  | .jbool _, _ => some .jundefined
  | .jnum _, _ => some .jundefined
  | .jstr _, _ => some .jundefined
  | .jarr _, _ => some .jundefined

/-- The test `typeof v === 'number'`. -/
def isNumberJS : JValue → Bool
  | .jnum _ => true
  | _ => false

/-- The element test of the import validation, src/App.tsx line 220:
`b.id && b.url && typeof b.createdAt === 'number'` with JavaScript
short-circuit evaluation; `none` models a thrown TypeError, which for
`JSON.parse` output happens exactly when the element itself is `null`. -/
def validEntry (v : JValue) : Option Bool :=
  match jsGetField v "id" with
  | none => none
  | some idv =>
    if jsTruthy idv then
      match jsGetField v "url" with
      | none => none
      | some urlv =>
        if jsTruthy urlv then
          match jsGetField v "createdAt" with
          | none => none
          | some cv => some (isNumberJS cv)
        else some false
    else some false

/-- `parsed.every(...)` over the element test, with the left-to-right
short-circuit evaluation of `Array.prototype.every`; a thrown TypeError
propagates. -/
def validateEvery : List JValue → Option Bool
  | [] => some true
  | v :: rest =>
    match validEntry v with
    | none => none
    | some false => some false
    | some true => validateEvery rest

/-- The JSON object a well-formed bookmark record is stored and
serialized as. -/
def toJValue (b : Bookmark) : JValue :=
  .jobj [("id", .jstr b.id), ("url", .jstr b.url), ("title", .jstr b.title),
    ("domain", .jstr b.domain), ("category", .jstr b.category),
    ("createdAt", .jnum b.createdAt)]

/-- `currentIds.has(b.id)` of src/App.tsx line 224, where `currentIds`
is a `Set` of the current collection's id strings: `Set.has` compares
with SameValueZero, so only a string id can match a stored string.
Elements reaching this test passed validation, hence are never
`null`/`undefined` and the access cannot throw. -/
def jsIdInSet (ids : List String) (v : JValue) : Bool :=
  match jsGetField v "id" with
  | some (.jstr s) => ids.contains s
  | _ => false

/-- Outcome of the import handler after the file content was read and
`JSON.parse` succeeded: the three rejection alerts of src/App.tsx
(lines 238, 231, 234), the declined confirmation (line 222), and the
performed merge (lines 223-227). Every failure constructor carries the
collection the handler leaves in place. -/
inductive ImportOutcome where
  | parseError (collection : List Bookmark)
  | notAnArray (collection : List Bookmark)
  | invalidShape (collection : List Bookmark)
  | cancelled (collection : List Bookmark)
  | merged (collection : List JValue) (addedCount : Nat)

/-- The decision logic of `handleImportFile`, src/App.tsx lines 217-239,
applied to the value produced by `JSON.parse`: reject non-arrays, run
the element validation (whose TypeError lands in the surrounding
`catch`, the parse-error alert), ask for confirmation, and merge — the
current entries are kept as stored (their object form) and the accepted
incoming raw entries whose id is not already present are appended. -/
def handleImportFile (current : List Bookmark) (parsed : JValue)
    (confirmed : Bool) : ImportOutcome :=
  match parsed with
  | .jarr elems =>
    match validateEvery elems with
    | none => .parseError current
    | some false => .invalidShape current
    | some true =>
      if confirmed then
        let currentIds := current.map (fun b => b.id)
        let newEntries := elems.filter (fun v => !(jsIdInSet currentIds v))
        .merged (current.map toJValue ++ newEntries) newEntries.length
      else .cancelled current
  | _ => .notAnArray current

/-- `.toLowerCase()` on a raw value: a string lowercases; on any other
value the call throws (`none`) — on `null`/`undefined` the property
access itself throws, elsewhere `toLowerCase` is not a function. -/
def jsToLowerCaseVal : JValue → Option String
  | .jstr s => some (jsToLowerCase s)
  | _ => none

/-- The category test of the filter over a raw entry, with the
short-circuit `||` of src/App.tsx line 257: the field is only read when
the selected category is not "All Bookmarks", and `===` against the
selected category string only holds for an equal string. -/
def matchesCategoryRaw (selectedCategory : String) (v : JValue) : Option Bool :=
  if selectedCategory == "All Bookmarks" then some true
  else
    match jsGetField v "category" with
    | none => none
    | some (.jstr s) => some (s == selectedCategory)
    | some _ => some false

/-- The search test of the filter over a raw entry, src/App.tsx lines
258-260: the title side is evaluated first and its TypeError
propagates; the domain side is reached only when the title side is
false. -/
def matchesSearchRaw (searchQuery : String) (v : JValue) : Option Bool :=
  match jsGetField v "title" with
  | none => none
  | some titlev =>
    match jsToLowerCaseVal titlev with
    | none => none
    | some tl =>
      if jsIncludes tl (jsToLowerCase searchQuery) then some true
      else
        match jsGetField v "domain" with
        | none => none
        | some dv =>
          match jsToLowerCaseVal dv with
          | none => none
          | some dl => some (jsIncludes dl (jsToLowerCase searchQuery))

/-- The filter callback of src/App.tsx lines 256-262 on a raw entry:
both constants are computed (category first, then search), then
conjoined. -/
def filterRawEntry (selectedCategory searchQuery : String) (v : JValue) : Option Bool :=
  match matchesCategoryRaw selectedCategory v with
  | none => none
  | some mc =>
    match matchesSearchRaw searchQuery v with
    | none => none
    | some ms => some (mc && ms)

/-- `Array.prototype.filter` of the pipeline over raw entries; `none`
when the callback throws at some element. -/
def filterRawList (selectedCategory searchQuery : String) :
    List JValue → Option (List JValue)
  | [] => some []
  | v :: t =>
    match filterRawEntry selectedCategory searchQuery v with
    | none => none
    | some keep =>
      match filterRawList selectedCategory searchQuery t with
      | none => none
      | some r => some (if keep then v :: r else r)

/-- Raw record carrying exactly the fields the import validation
checks — no `title`, no `domain`. -/
def minimalImported : JValue :=
  .jobj [("id", .jstr "m"), ("url", .jstr "https://m.example"), ("createdAt", .jnum 1)]

/-- Claim C10, falsified by the code (the claim states the intended
safety property): `minimalImported` passes the import validation of
line 220 and is merged into the stored collection, but evaluating the
filter of lines 256-262 on the resulting collection throws — the
`title` read yields `undefined` and `.toLowerCase()` on it is a
TypeError — so the view pipeline is not total on collections reachable
through import. -/
theorem view_after_import_can_throw :
    validateEvery [minimalImported] = some true ∧
    handleImportFile [] (.jarr [minimalImported]) true = .merged [minimalImported] 1 ∧
    filterRawList "All Bookmarks" "" [minimalImported] = none :=
  ⟨rfl, rfl, rfl⟩

-- Validation lemmas for the import failure claim.

theorem jsGetField_isSome (v : JValue) (h1 : v ≠ .jnull) (h2 : v ≠ .jundefined)
    (name : String) : ∃ w, jsGetField v name = some w := by
  cases v with
  | jnull => exact absurd rfl h1
  | jundefined => exact absurd rfl h2
  | jobj fields =>
    cases h : fields.lookup name with
    | some w => exact ⟨w, by simp [jsGetField, h]⟩
    | none => exact ⟨.jundefined, by simp [jsGetField, h]⟩
  | jbool b => exact ⟨.jundefined, rfl⟩
  | jnum n => exact ⟨.jundefined, rfl⟩
  | jstr s => exact ⟨.jundefined, rfl⟩
  | jarr es => exact ⟨.jundefined, rfl⟩

theorem validEntry_eq_some (v : JValue) (h1 : v ≠ .jnull) (h2 : v ≠ .jundefined) :
    ∃ b, validEntry v = some b := by
  obtain ⟨idv, hid⟩ := jsGetField_isSome v h1 h2 "id"
  obtain ⟨urlv, hurl⟩ := jsGetField_isSome v h1 h2 "url"
  obtain ⟨cv, hc⟩ := jsGetField_isSome v h1 h2 "createdAt"
  by_cases hti : jsTruthy idv = true
  · by_cases htu : jsTruthy urlv = true
    · exact ⟨isNumberJS cv, by simp [validEntry, hid, hurl, hc, hti, htu]⟩
    · exact ⟨false, by simp [validEntry, hid, hurl, hti, htu]⟩
  · exact ⟨false, by simp [validEntry, hid, hti]⟩

theorem validEntry_true_parts (v : JValue) (h : validEntry v = some true) :
    (∀ w, jsGetField v "id" = some w → jsTruthy w = true) ∧
    (∀ w, jsGetField v "url" = some w → jsTruthy w = true) ∧
    (∀ w, jsGetField v "createdAt" = some w → isNumberJS w = true) := by
  cases hid : jsGetField v "id" with
  | none => simp [validEntry, hid] at h
  | some idv =>
    by_cases hti : jsTruthy idv = true
    · cases hurl : jsGetField v "url" with
      | none => simp [validEntry, hid, hti, hurl] at h
      | some urlv =>
        by_cases htu : jsTruthy urlv = true
        · cases hc : jsGetField v "createdAt" with
          | none => simp [validEntry, hid, hti, hurl, htu, hc] at h
          | some cv =>
            simp only [validEntry, hid, hti, if_true, hurl, htu, hc,
              Option.some.injEq] at h
            refine ⟨fun w hw => ?_, fun w hw => ?_, fun w hw => ?_⟩
            · cases hw
              exact hti
            · cases hw
              exact htu
            · cases hw
              exact h
        · simp [validEntry, hid, hti, hurl, htu] at h
    · simp [validEntry, hid, hti] at h

/-- Element-level shape defect named by the validation claim: no
non-empty identity token, no url, or a creation timestamp that is not
numeric. -/
def lacksShape (v : JValue) : Prop :=
  jsGetField v "id" = some JValue.jundefined ∨ jsGetField v "id" = some (JValue.jstr "") ∨
  jsGetField v "url" = some JValue.jundefined ∨
  (∀ n : Int, jsGetField v "createdAt" ≠ some (JValue.jnum n))

theorem validEntry_false_of_lacksShape (v : JValue) (h1 : v ≠ .jnull)
    (h2 : v ≠ .jundefined) (hl : lacksShape v) : validEntry v = some false := by
  obtain ⟨b, hb⟩ := validEntry_eq_some v h1 h2
  cases b with
  | false => exact hb
  | true =>
    exfalso
    obtain ⟨pid, purl, pc⟩ := validEntry_true_parts v hb
    rcases hl with h | h | h | h
    · have hx := pid _ h
      simp [jsTruthy] at hx
    · have hx := pid _ h
      simp [jsTruthy] at hx
    · have hx := purl _ h
      simp [jsTruthy] at hx
    · obtain ⟨cv, hc⟩ := jsGetField_isSome v h1 h2 "createdAt"
      have hnum := pc cv hc
      cases cv <;> simp [isNumberJS] at hnum
      case jnum n => exact h n hc

theorem validateEvery_eq_false (elems : List JValue)
    (hnn : ∀ e ∈ elems, validEntry e ≠ none)
    (hex : ∃ e ∈ elems, validEntry e = some false) :
    validateEvery elems = some false := by
  induction elems with
  | nil => simp at hex
  | cons a t ih =>
    cases ha : validEntry a with
    | none => exact absurd ha (hnn a (List.mem_cons_self a t))
    | some b =>
      cases b with
      | false => simp [validateEvery, ha]
      | true =>
        have hext : ∃ e ∈ t, validEntry e = some false := by
          obtain ⟨e, he, hef⟩ := hex
          rcases List.mem_cons.mp he with rfl | het
          · rw [ha] at hef
            cases hef
          · exact ⟨e, het, hef⟩
        have hnnt : ∀ e ∈ t, validEntry e ≠ none :=
          fun e he => hnn e (List.mem_cons_of_mem a he)
        simp [validateEvery, ha, ih hnnt hext]

/-- Claim C9, amended: a non-array import value is rejected as
not-an-array; an array none of whose elements is `null` (or
`undefined`) that contains an element lacking a non-empty identity
token, lacking a url, or whose creation timestamp is not numeric is
rejected as invalid-shape; and every non-merge outcome carries exactly
the untouched current collection. (As stated the claim is false only
for arrays containing a `null` element: there the element test itself
throws a TypeError, which the surrounding catch reports as the generic
parse error instead of the invalid-shape rejection; the collection is
still unchanged.) -/
theorem import_validation_failures (current : List Bookmark) (parsed : JValue)
    (confirmed : Bool) :
    ((∀ elems, parsed ≠ .jarr elems) →
      handleImportFile current parsed confirmed = .notAnArray current) ∧
    (∀ elems, parsed = .jarr elems →
      (∀ e ∈ elems, e ≠ .jnull ∧ e ≠ .jundefined) →
      (∃ e ∈ elems, lacksShape e) →
      handleImportFile current parsed confirmed = .invalidShape current) ∧
    (handleImportFile current parsed confirmed = .notAnArray current ∨
      handleImportFile current parsed confirmed = .invalidShape current ∨
      handleImportFile current parsed confirmed = .parseError current ∨
      handleImportFile current parsed confirmed = .cancelled current ∨
      ∃ mergedEntries n, handleImportFile current parsed confirmed
        = .merged mergedEntries n) := by
  refine ⟨?_, ?_, ?_⟩
  · intro h
    cases parsed with
    | jarr elems => exact absurd rfl (h elems)
    | jundefined => rfl
    | jnull => rfl
    | jbool b => rfl
    | jnum n => rfl
    | jstr s => rfl
    | jobj fields => rfl
  · intro elems he hnn hex
    subst he
    have hfalse : validateEvery elems = some false := by
      apply validateEvery_eq_false elems
      · intro e he'
        obtain ⟨b, hb⟩ := validEntry_eq_some e (hnn e he').1 (hnn e he').2
        simp [hb]
      · obtain ⟨e, he', hl⟩ := hex
        exact ⟨e, he',
          validEntry_false_of_lacksShape e (hnn e he').1 (hnn e he').2 hl⟩
    simp [handleImportFile, hfalse]
  · cases parsed with
    | jarr elems =>
      cases hv : validateEvery elems with
      | none => simp [handleImportFile, hv]
      | some b =>
        cases b with
        | false => simp [handleImportFile, hv]
        | true =>
          by_cases hc : confirmed
          · simp only [handleImportFile, hv, hc, if_true]
            exact Or.inr (Or.inr (Or.inr (Or.inr ⟨_, _, rfl⟩)))
          · simp [handleImportFile, hv, hc]
    | jundefined => simp [handleImportFile]
    | jnull => simp [handleImportFile]
    | jbool b => simp [handleImportFile]
    | jnum n => simp [handleImportFile]
    | jstr s => simp [handleImportFile]
    | jobj fields => simp [handleImportFile]

/-- Raw record with an id and a timestamp but no url. -/
def badElem : JValue :=
  .jobj [("id", .jstr "w"), ("createdAt", .jnum 7)]

theorem import_validation_failures_witness :
    (∀ e ∈ [badElem], e ≠ JValue.jnull ∧ e ≠ JValue.jundefined) ∧
    lacksShape badElem ∧
    handleImportFile [bk0] (.jarr [badElem]) true = .invalidShape [bk0] := by
  have hne : ∀ e ∈ [badElem], e ≠ JValue.jnull ∧ e ≠ JValue.jundefined := by
    intro e he
    rw [List.mem_singleton] at he
    subst he
    exact ⟨fun h => JValue.noConfusion h, fun h => JValue.noConfusion h⟩
  have hls : lacksShape badElem := Or.inr (Or.inr (Or.inl rfl))
  exact ⟨hne, hls,
    (import_validation_failures [bk0] (.jarr [badElem]) true).2.1 [badElem] rfl hne
      ⟨badElem, List.mem_singleton.mpr rfl, hls⟩⟩

/-- Counterexample to claim C9 as stated: the array `[null]` contains
an element lacking everything the validation asks for, yet the import
does not fail with the invalid-shape rejection — reading `.id` of
`null` throws a TypeError inside `Array.prototype.every`, the
surrounding catch reports the generic parse error (src/App.tsx line
238), and the collection stays unchanged. -/
theorem import_null_element_counterexample :
    lacksShape JValue.jnull ∧
    handleImportFile [bk0] (.jarr [JValue.jnull]) true = .parseError [bk0] ∧
    ImportOutcome.parseError [bk0] ≠ ImportOutcome.invalidShape [bk0] := by
  refine ⟨?_, rfl, fun h => ImportOutcome.noConfusion h⟩
  exact Or.inr (Or.inr (Or.inr (fun n h => Option.noConfusion h)))

-- Consistency of the raw layer with the bookmark-level restriction.

/-- On the serialized form of a well-formed record, the element test of
line 220 computes exactly the bookmark-level validity predicate. -/
theorem validEntry_toJValue (b : Bookmark) :
    validEntry (toJValue b) = some (validBookmarkEntry b) := by
  by_cases hid : (b.id != "") = true <;> by_cases hurl : (b.url != "") = true <;>
    simp [validEntry, toJValue, jsGetField, List.lookup, jsTruthy, isNumberJS,
      validBookmarkEntry, hid, hurl]

theorem jsIdInSet_toJValue (ids : List String) (b : Bookmark) :
    jsIdInSet ids (toJValue b) = ids.contains b.id := by
  simp [jsIdInSet, toJValue, jsGetField, List.lookup]

/-- On an import file that is the serialization of well-formed records,
the accepted import performs exactly the bookmark-level merge
`mergeImport`: the merged stored collection is the serialization of
`(mergeImport current incoming).merged` and the reported count is
`(mergeImport current incoming).addedCount`. -/
theorem handleImportFile_toJValue (current incoming : List Bookmark)
    (hvalid : validateEvery (incoming.map toJValue) = some true) :
    handleImportFile current (.jarr (incoming.map toJValue)) true
      = .merged ((mergeImport current incoming).merged.map toJValue)
          (mergeImport current incoming).addedCount := by
  have hfilter : (incoming.map toJValue).filter
      (fun v => !(jsIdInSet (current.map (fun b => b.id)) v))
      = (incoming.filter
          (fun b => !((current.map (fun b => b.id)).contains b.id))).map toJValue := by
    rw [List.filter_map]
    apply congrArg
    apply List.filter_congr
    intro b hb
    simp [Function.comp, jsIdInSet_toJValue]
  simp only [handleImportFile, hvalid, if_true, hfilter]
  simp [mergeImport, List.length_map]
